import Mathlib

/-!
The triage engine of enc-alertbuddy.

A shallow embedding of the Go sources `alert.go`, `priority.go`, `group.go` and
`filter.go` and of the parts of `cli.go` that call them, followed by the
properties of the specification settled against it.

Conventions of the embedding.

* A Go `float64` is a rational number (`ℚ`) and arithmetic on it is exact: the
  rounding error of IEEE-754 operations, infinities and NaN are not modelled.
  What is proved of a score is therefore proved of the score in exact
  arithmetic; the last decimal that the program prints can differ from it.
* The `int` that counts components is a `Nat`. The `int` of the recency window
  is an `Int`, and the arithmetic of `time.Duration` on it wraps around modulo
  `2 ^ 64`, as `int64` does.
* A Go `string` is a `String`; a slice is a `List`; a `map[string]T` is an
  association list with pairwise distinct keys, listed in the order in which
  the keys were first stored (Go gives no order to the keys of a map).
* `time.Time` is the instant only, as an integer count of nanoseconds;
  `time.Now()` is a parameter.
* Routines of the Go standard library that the sources call and whose text is
  not part of the repository are either written out from their documented
  behaviour (`math.Abs`, `math.Round`, `strings.ToLower`, `strings.Title`,
  the verb `%.2f`) or taken as a parameter (`sort.Slice`, the verb `%v` on a
  `time.Time`).
-/

namespace AlertBuddy

/-! ## Data model (`alert.go`) -/

/-- Alert, the struct of `alert.go`. The field `Priority` is modelled from the
specification (section 3: "priority (64-bit float, derived)"): `alert.go` as
given does not declare it, while `priority.go`, `cli.go` and the tests read and
assign `alert.Priority`. -/
structure Alert where
  ID : String
  Timestamp : Int
  Service : String
  Component : String
  Severity : String
  Metric : String
  Value : ℚ
  Threshold : ℚ
  Description : String
  Priority : ℚ
  deriving DecidableEq

/-- Alerts: the struct `Alerts` has the single field `Alerts []Alert`. -/
abbrev Alerts := List Alert

/-! ## Standard library routines written out -/

/-- The function `math.Abs`. -/
def mathAbs (x : ℚ) : ℚ := if x < 0 then -x else x

/-- The function `math.Round`: the nearest integer, halves away from zero. -/
def mathRound (x : ℚ) : ℤ := if x < 0 then -⌊-x + 1 / 2⌋ else ⌊x + 1 / 2⌋

/-- One rune of `strings.ToLower` (`unicode.ToLower`). Besides the ASCII
capitals, the two code points whose lower case is an ASCII letter are mapped:
U+0130 to `i` and U+212A (Kelvin sign) to `k`. Every other rune above U+007F
is left as it is: its lower case is again above U+007F. -/
def toLowerRune (c : Char) : Char :=
  if c.val = 0x130 then 'i'
  else if c.val = 0x212A then 'k'
  else c.toLower

/-- The function `strings.ToLower`. -/
def stringsToLower (s : String) : String := ⟨s.data.map toLowerRune⟩

/-- The function `unicode.IsSpace`. -/
def isSpaceRune (c : Char) : Bool :=
  let n := c.val.toNat
  (9 ≤ n && n ≤ 13) || n = 0x20 || n = 0x85 || n = 0xA0 || n = 0x1680 ||
  (0x2000 ≤ n && n ≤ 0x200A) || n = 0x2028 || n = 0x2029 || n = 0x202F ||
  n = 0x205F || n = 0x3000

/-- The helper `isSeparator` of package `strings`: ASCII letters, digits and the
underscore are not separators, every other ASCII rune is; above ASCII only the
spaces are separators. -/
def isSeparator (c : Char) : Bool :=
  if c.val.toNat ≤ 0x7F then !(c.isAlphanum || c = '_')
  else isSpaceRune c

/-- One rune of `unicode.ToTitle`. Besides the ASCII small letters, the two
code points whose title case is an ASCII letter are mapped: U+0131 to `I` and
U+017F to `S`. Every other rune above U+007F is left as it is: its title case
is again above U+007F. -/
def toTitleRune (c : Char) : Char :=
  if c.val = 0x131 then 'I'
  else if c.val = 0x17F then 'S'
  else c.toUpper

/-- The loop of `strings.Title`: `prev` is the rune before the current one. -/
def titleRunes (prev : Char) : List Char → List Char
  | [] => []
  | c :: cs => (if isSeparator prev then toTitleRune c else c) :: titleRunes c cs

/-- The function `strings.Title`: the first letter of every word in title case. -/
def stringsTitle (s : String) : String := ⟨titleRunes ' ' s.data⟩

/-! ## Priority scoring (`priority.go`) -/

/-- The function `calculateDeviationPercentage`. -/
def calculateDeviationPercentage (value threshold : ℚ) : ℚ :=
  if threshold = 0 then 0
  else
    let deviation := mathAbs (value - threshold)
    let percentage := (deviation / threshold) * 100
    if percentage > 1000 then 1000 else percentage

/-- One iteration of the loop of `countAffectedComponents`: the set of
component names after the alert has been looked at. -/
def componentStep (targetAlert : Alert) (componentSet : List String) (alert : Alert) :
    List String :=
  if alert.Service = targetAlert.Service ∧ alert.Metric = targetAlert.Metric ∧
      alert.ID ≠ targetAlert.ID then
    (if alert.Component ∈ componentSet then componentSet
     else alert.Component :: componentSet)
  else componentSet

/-- The method `Alerts.countAffectedComponents`. -/
def countAffectedComponents (alerts : Alerts) (targetAlert : Alert) : Nat :=
  (alerts.foldl (componentStep targetAlert) []).length + 1

/-- The severity switch of `CalculatePriority`. -/
def severityScore (severity : String) : ℚ :=
  let s := stringsToLower severity
  if s = "critical" then 10
  else if s = "warning" then 5
  else if s = "info" then 1
  else 1

/-- The method `Alert.CalculatePriority`: the alert with its priority set. -/
def CalculatePriority (alert : Alert) (allAlerts : Alerts) : Alert :=
  let deviationPercentage := calculateDeviationPercentage alert.Value alert.Threshold
  let affectedComponents : ℚ := (countAffectedComponents allAlerts alert : ℕ)
  let priority := (severityScore alert.Severity * 1) + (deviationPercentage * (1 / 10)) +
    (affectedComponents * 2)
  { alert with Priority := (mathRound (priority * 100) : ℚ) / 100 }

/-- One iteration of the loop of `CalculateAllPriorities`: element `i` of the
slice is scored in place, against the slice as it is at that moment. -/
def priorityStep (cur : Alerts) (i : Nat) : Alerts :=
  match cur[i]? with
  | some a => cur.set i (CalculatePriority a cur)
  | none => cur

/-- The method `Alerts.CalculateAllPriorities`. -/
def CalculateAllPriorities (alerts : Alerts) : Alerts :=
  (List.range alerts.length).foldl priorityStep alerts

/-! ## Sorting (`priority.go`) -/

/-- The comparison closure handed to `sort.Slice` by `SortByPriority`:
`alerts.Alerts[i].Priority > alerts.Alerts[j].Priority`. -/
def priorityLess (a b : Alert) : Bool := decide (a.Priority > b.Priority)

/-- The method `Alerts.SortByPriority`. The routine `sort.Slice` of the Go
standard library is the parameter `sortSlice`: it receives the comparison and
the slice and gives the slice as it is after sorting in place. -/
def SortByPriority (sortSlice : (Alert → Alert → Bool) → Alerts → Alerts)
    (alerts : Alerts) : Alerts :=
  sortSlice priorityLess alerts

/-- What the documentation of `sort.Interface` asks of a comparison: it is a
transitive ordering, and so is "neither is less than the other". -/
def TransitiveOrdering (less : Alert → Alert → Bool) : Prop :=
  (∀ a, less a a = false) ∧
  (∀ a b c, less a b = true → less b c = true → less a c = true) ∧
  (∀ a b c, less a b = false → less b c = false → less a c = false)

/-- What the documentation of `sort.Slice` promises: on a comparison that is a
transitive ordering the slice is rearranged (nothing added, nothing lost) so
that no element is less than an element placed before it. Stability is
expressly not promised ("equal elements may be reversed from their original
order"). -/
def SortSliceContract (sortSlice : (Alert → Alert → Bool) → Alerts → Alerts) : Prop :=
  ∀ less xs, TransitiveOrdering less →
    (sortSlice less xs).Perm xs ∧
    (sortSlice less xs).Pairwise (fun a b => less b a = false)

/-- Insertion of one element into a sorted slice, moving it left past every
element it is less than (the inner loop of an insertion sort). -/
def insertLeft (less : Alert → Alert → Bool) (x : Alert) : List Alert → List Alert
  | [] => [x]
  | y :: ys => if less y x = false then x :: y :: ys else y :: insertLeft less x ys

/-- An insertion sort that keeps equal elements in their order: one routine
that meets `SortSliceContract`. -/
def insertionSortSlice (less : Alert → Alert → Bool) : Alerts → Alerts
  | [] => []
  | x :: xs => insertLeft less x (insertionSortSlice less xs)

/-- The same insertion sort run over the slice read from its end: another
routine that meets `SortSliceContract`; it reverses equal elements. -/
def reversingSortSlice (less : Alert → Alert → Bool) (xs : Alerts) : Alerts :=
  insertionSortSlice less xs.reverse

/-! ## Grouping (`group.go`) -/

/-- The decimal digits of a natural number. -/
def natDigits (n : Nat) : String := toString n

/-- Rounding of a non-negative rational to the nearest natural number, halves
to the even neighbour (the rounding of `strconv` when it shortens a decimal). -/
def roundHalfEven (y : ℚ) : Nat :=
  let f := ⌊y⌋.toNat
  let r := y - f
  if r < 1 / 2 then f
  else if 1 / 2 < r then f + 1
  else if f % 2 = 0 then f else f + 1

/-- The verb `%.2f` of `fmt.Sprintf` on a finite value. -/
def formatFloat2 (x : ℚ) : String :=
  let n := roundHalfEven (mathAbs x * 100)
  let frac := n % 100
  (if x < 0 then "-" else "") ++ natDigits (n / 100) ++ "." ++
    (if frac < 10 then "0" else "") ++ natDigits frac

/-- The key of an alert for a struct field name: `reflect.Value.FieldByName`
followed by the switch on the kind of the field. The result is `none` when the
struct has no field of that name (`IsValid` is false). The parameter `fmtV` is
the verb `%v` of `fmt.Sprintf` on a `time.Time`. -/
def fieldKey (fmtV : Int → String) (alert : Alert) (name : String) : Option String :=
  if name = "ID" then some alert.ID
  else if name = "Timestamp" then some (fmtV alert.Timestamp)
  else if name = "Service" then some alert.Service
  else if name = "Component" then some alert.Component
  else if name = "Severity" then some alert.Severity
  else if name = "Metric" then some alert.Metric
  else if name = "Value" then some (formatFloat2 alert.Value)
  else if name = "Threshold" then some (formatFloat2 alert.Threshold)
  else if name = "Description" then some alert.Description
  else if name = "Priority" then some (formatFloat2 alert.Priority)
  else none

/-- The mapping `map[string]Alerts`. -/
abbrev GroupMap := List (String × Alerts)

/-- The last three statements of the loop of `Group`: the group of the key is
created empty when the key is new, and the alert is appended to it. -/
def appendToGroup (grouped : GroupMap) (key : String) (alert : Alert) : GroupMap :=
  match grouped with
  | [] => [(key, [alert])]
  | (k, g) :: rest =>
    if k = key then (k, g ++ [alert]) :: rest
    else (k, g) :: appendToGroup rest key alert

/-- One iteration of the loop of `Group`. -/
def groupStep (fmtV : Int → String) (field : String) (grouped : GroupMap) (alert : Alert) :
    GroupMap :=
  match fieldKey fmtV alert (stringsTitle field) with
  | none => grouped
  | some key => appendToGroup grouped key alert

/-- The method `Alerts.Group`. -/
def Group (fmtV : Int → String) (alerts : Alerts) (field : String) : GroupMap :=
  alerts.foldl (groupStep fmtV field) []

/-! ## Definitions that follow the words of the specification -/

/-- Section 4.2, contract: the number of distinct components alerting on the
same (service, metric) pair as the target. -/
def distinctComponentsOnPair (alerts : Alerts) (target : Alert) : Nat :=
  ((alerts.filter (fun a => a.Service = target.Service ∧ a.Metric = target.Metric)).map
    (fun a => a.Component)).dedup.length

/-- Section 4.3, "rounded ... round-half-away-from-zero": the integer `k` is
`x` rounded to the nearest integer, a half going away from zero. -/
def RoundsHalfAway (x : ℚ) (k : ℤ) : Prop :=
  |(k : ℚ) - x| ≤ 1 / 2 ∧ (|(k : ℚ) - x| = 1 / 2 → |x| < |(k : ℚ)|)

/-- Section 4.5, "ties retain their relative input order": the alerts of every
priority value form the same sequence in `sorted` as in `input`. -/
def TiesKeepOrder (input sorted : Alerts) : Prop :=
  ∀ p : ℚ, sorted.filter (fun a => a.Priority = p) = input.filter (fun a => a.Priority = p)

/-- An alert with the given identifier, service, component, severity, metric,
value and threshold, and nothing else set. -/
def mkAlert (id service component severity metric : String) (value threshold : ℚ) : Alert :=
  { ID := id, Timestamp := 0, Service := service, Component := component,
    Severity := severity, Metric := metric, Value := value, Threshold := threshold,
    Description := "", Priority := 0 }

/-- A stand-in for the `%v` rendering of a `time.Time`: the count of
nanoseconds in decimal. -/
def nanosV (t : Int) : String := toString t

/-- The fields of an alert that `countAffectedComponents` reads. -/
def countKey (a : Alert) : String × String × String × String :=
  (a.Service, a.Metric, a.ID, a.Component)

/-- Two alerts of the same component `api` on the pair (`svc`, `latency`),
with different identifiers. -/
def twinBatch : Alerts :=
  [mkAlert "ALT-1" "svc" "api" "critical" "latency" 100 50,
   mkAlert "ALT-2" "svc" "api" "warning" "latency" 120 50]

/-- An alert whose threshold is negative: a temperature of -25 against a
threshold of -10. -/
def coldAlert : Alert := mkAlert "ALT-1" "freezer" "sensor" "info" "temperature" (-25) (-10)

/-- The alert of the concrete scenario of section 8: critical, value 2300,
threshold 1000. -/
def latencyAlert : Alert := mkAlert "ALT-001" "svc" "api" "critical" "latency" 2300 1000

/-- Thirteen alerts `a0` ... `a12`: twelve of priority 5, then one of
priority 9. -/
def tieBatch : Alerts :=
  (List.range 13).map fun i =>
    { mkAlert ("a" ++ toString i) "svc" "c" "info" "m" 0 0 with
      Priority := if i = 12 then 9 else 5 }

/-! ## Filtering (`filter.go`) -/

/-- The method `Alerts.FilterBySeverity`: the alerts whose severity is `s` are
appended, one after the other, to a slice that starts empty. -/
def FilterBySeverity (a : Alerts) (s : String) : Alerts :=
  a.foldl (fun filtered alert => if alert.Severity = s then filtered ++ [alert] else filtered) []

/-- The method `Alerts.FilterByService`. -/
def FilterByService (a : Alerts) (s : String) : Alerts :=
  a.foldl (fun filtered alert => if alert.Service = s then filtered ++ [alert] else filtered) []

/-- The constant `time.Minute`, in nanoseconds. -/
def timeMinute : Int := 60000000000

/-- The value of an integer expression in the type `int64` (and in
`time.Duration`): the result wraps around modulo `2 ^ 64`. -/
def wrapInt64 (x : Int) : Int := (x + 2 ^ 63) % 2 ^ 64 - 2 ^ 63

/-- The duration `-time.Duration(minutes) * time.Minute`. -/
def windowDuration (minutes : Int) : Int := wrapInt64 (wrapInt64 (-minutes) * timeMinute)

/-- The method `Alerts.FilterByLastMinutes`. The parameter `now` is the value of
`time.Now()`; `Time.Add` is the sum of instant and duration, and `Time.After`
is the strict order of instants. -/
def FilterByLastMinutes (now : Int) (a : Alerts) (minutes : Int) : Alerts :=
  let cutoffTime := now + windowDuration minutes
  a.foldl (fun filtered alert =>
    if alert.Timestamp > cutoffTime then filtered ++ [alert] else filtered) []

/-! ## The command line (`cli.go`) -/

/-- The slice `validFields` of `parseFlags`. -/
def validFields : List String :=
  ["severity", "service", "component", "metric", "threshold", "value", "priority"]

/-- The function `contains`. -/
def contains (slice : List String) (item : String) : Bool :=
  slice.any (fun s => decide (stringsToLower s = stringsToLower item))

/-- The validation of `--groupby` in `parseFlags`: `true` when `parseFlags`
raises no error for the value. -/
def groupByAccepted (groupBy : String) : Bool :=
  if groupBy ≠ "" then contains validFields (stringsToLower groupBy) else true

/-- The first part of `processAlerts`, up to the summary: the collection that
is handed on to be displayed, as a whole, grouped or by its first ten alerts. -/
def processAlerts (sortSlice : (Alert → Alert → Bool) → Alerts → Alerts) (now : Int)
    (alerts : Alerts) (lastMinutes : Int) : Alerts :=
  let scored := CalculateAllPriorities alerts
  let sorted := SortByPriority sortSlice scored
  if lastMinutes > 0 then FilterByLastMinutes now sorted lastMinutes else sorted

/-! ## Further definitions that follow the words of the specification -/

/-- Section 4.4, key derivation for a string-valued field `key`: the keys of
the mapping are the distinct values of the field in the collection, each once,
and the group of a key is the sub-sequence of the alerts that have it. -/
def GroupsByStringField (grouped : GroupMap) (alerts : Alerts) (key : Alert → String) : Prop :=
  (grouped.map Prod.fst).Nodup ∧
  (∀ k, k ∈ grouped.map Prod.fst ↔ ∃ a ∈ alerts, key a = k) ∧
  (∀ kg ∈ grouped, kg.2 = alerts.filter (fun a => key a = kg.1))

/-- Section 4.2, algorithm: the set of component names of the alerts that share
(service, metric) with the target and do not have its identifier. -/
def otherComponents (alerts : Alerts) (target : Alert) : List String :=
  ((alerts.filter (fun a => a.Service = target.Service ∧ a.Metric = target.Metric ∧
    a.ID ≠ target.ID)).map (fun a => a.Component)).dedup

/-! ## Further sample batches -/

/-- Two alerts with the same identifier, service and metric and with different
components. -/
def sameIdBatch : Alerts :=
  [mkAlert "ALT-1" "svc" "component-1" "critical" "m" 100 50,
   mkAlert "ALT-1" "svc" "component-2" "critical" "m" 120 50]

/-- An alert of component `api`, stamped at instant 1000, and an alert of
component `db` on the same service and metric, stamped two hours before. -/
def windowBatch : Alerts :=
  [{ mkAlert "ALT-1" "svc" "api" "info" "latency" 5 0 with Timestamp := 1000 },
   { mkAlert "ALT-2" "svc" "db" "info" "latency" 5 0 with
     Timestamp := 1000 - 120 * 60000000000 }]

/-- An alert of the given severity with value -1397 and threshold -2000. -/
def tieAlert (severity : String) : Alert :=
  mkAlert "ALT-1" "svc" "api" severity "latency" (-1397) (-2000)

/-- An alert of the given severity with the value 2300 and the threshold 1000
of the concrete scenario of section 8. -/
def scenarioAlert (severity : String) : Alert :=
  mkAlert "ALT-001" "svc" "api" severity "latency" 2300 1000

/-! ## Scoring: what `countAffectedComponents` and the scoring pass depend on -/

theorem componentStep_congr (t t' a a' : Alert) (s : List String)
    (ht : countKey t = countKey t') (ha : countKey a = countKey a') :
    componentStep t s a = componentStep t' s a' := by
  simp only [countKey, Prod.mk.injEq] at ht ha
  obtain ⟨h1, h2, h3, -⟩ := ht
  obtain ⟨g1, g2, g3, g4⟩ := ha
  simp only [componentStep, h1, h2, h3, g1, g2, g3, g4]

theorem foldl_componentStep_congr (t t' : Alert) (ht : countKey t = countKey t') :
    ∀ (xs ys : Alerts) (s : List String), xs.map countKey = ys.map countKey →
      xs.foldl (componentStep t) s = ys.foldl (componentStep t') s := by
  intro xs
  induction xs with
  | nil =>
    intro ys s h
    cases ys with
    | nil => rfl
    | cons y ys => simp at h
  | cons x xs ih =>
    intro ys s h
    cases ys with
    | nil => simp at h
    | cons y ys =>
      simp only [List.map_cons, List.cons.injEq] at h
      simp only [List.foldl_cons]
      rw [componentStep_congr t t' x y s ht h.1]
      exact ih ys _ h.2

theorem countAffectedComponents_congr (xs ys : Alerts) (t t' : Alert)
    (h : xs.map countKey = ys.map countKey) (ht : countKey t = countKey t') :
    countAffectedComponents xs t = countAffectedComponents ys t' := by
  simp only [countAffectedComponents, foldl_componentStep_congr t t' ht xs ys [] h]

theorem countKey_CalculatePriority (a : Alert) (C : Alerts) :
    countKey (CalculatePriority a C) = countKey a := rfl

theorem CalculatePriority_congr (xs ys : Alerts) (a : Alert)
    (h : xs.map countKey = ys.map countKey) :
    CalculatePriority a xs = CalculatePriority a ys := by
  simp only [CalculatePriority, countAffectedComponents_congr xs ys a a h rfl]

/-- The slice after the first `k` iterations of `CalculateAllPriorities`. -/
theorem priority_loop (C : Alerts) : ∀ k, k ≤ C.length →
    (List.range k).foldl priorityStep C =
      (C.take k).map (fun a => CalculatePriority a C) ++ C.drop k := by
  intro k
  induction k with
  | zero => intro _; simp
  | succ k ih =>
    intro hk
    have hk' : k < C.length := hk
    rw [List.range_succ, List.foldl_append, ih (Nat.le_of_lt hk')]
    simp only [List.foldl_cons, List.foldl_nil]
    set cur := (C.take k).map (fun a => CalculatePriority a C) ++ C.drop k with hcur
    have hkey : cur.map countKey = C.map countKey := by
      have : (C.take k ++ C.drop k).map countKey = C.map countKey := by
        rw [List.take_append_drop]
      rw [← this, hcur]
      simp [List.map_append, Function.comp_def, countKey_CalculatePriority]
    have hlen : ((C.take k).map (fun a => CalculatePriority a C)).length = k := by
      simp [List.length_take, Nat.min_eq_left (Nat.le_of_lt hk')]
    have hget : cur[k]? = some (C[k]) := by
      rw [hcur, List.getElem?_append_right (by omega), hlen, Nat.sub_self]
      simp [List.getElem?_drop, List.getElem?_eq_getElem hk']
    simp only [priorityStep, hget]
    rw [CalculatePriority_congr cur C _ hkey, hcur]
    rw [List.set_append_right _ _ (by omega), hlen, Nat.sub_self]
    rw [List.drop_eq_getElem_cons hk', List.set_cons_zero]
    rw [List.take_succ, List.getElem?_eq_getElem hk']
    simp only [Option.toList, List.map_append, List.map_cons, List.map_nil, List.append_assoc,
      List.singleton_append]

theorem CalculateAllPriorities_eq_map (C : Alerts) :
    CalculateAllPriorities C = C.map (fun a => CalculatePriority a C) := by
  have h := priority_loop C C.length (Nat.le_refl _)
  simpa [CalculateAllPriorities] using h

theorem CalculatePriority_CalculatePriority (a : Alert) (C D : Alerts) :
    CalculatePriority (CalculatePriority a C) D = CalculatePriority a D := by
  have h : countAffectedComponents D (CalculatePriority a C) = countAffectedComponents D a :=
    countAffectedComponents_congr D D _ _ rfl (countKey_CalculatePriority a C)
  have e : CalculatePriority (CalculatePriority a C) D =
      { a with Priority := (mathRound ((severityScore a.Severity * 1 +
        calculateDeviationPercentage a.Value a.Threshold * (1 / 10) +
        ((countAffectedComponents D (CalculatePriority a C) : ℕ) : ℚ) * 2) * 100) : ℚ) / 100 } :=
    rfl
  rw [e, h]
  rfl

/-! ## Rounding and evaluation at sample inputs -/

theorem mathRound_roundsHalfAway (x : ℚ) : RoundsHalfAway x (mathRound x) := by
  unfold RoundsHalfAway mathRound
  by_cases hx : x < 0
  · simp only [hx, if_true]
    have h1 := Int.floor_le (-x + 1 / 2)
    have h2 := Int.lt_floor_add_one (-x + 1 / 2)
    set m : ℤ := ⌊-x + 1 / 2⌋ with hm
    push_cast
    constructor
    · rw [abs_le]; constructor <;> linarith
    · intro h
      have hk : -(m : ℚ) - x = -(1 / 2) := by
        rcases abs_eq (by norm_num : (0 : ℚ) ≤ 1 / 2) |>.mp h with h' | h'
        · linarith
        · exact h'
      have hmpos : (0 : ℚ) < m := by linarith
      rw [abs_of_neg hx, abs_neg, abs_of_pos hmpos]
      linarith
  · simp only [hx, if_false]
    have hx' : 0 ≤ x := not_lt.mp hx
    have h1 := Int.floor_le (x + 1 / 2)
    have h2 := Int.lt_floor_add_one (x + 1 / 2)
    set m : ℤ := ⌊x + 1 / 2⌋ with hm
    constructor
    · rw [abs_le]; constructor <;> linarith
    · intro h
      have hk : (m : ℚ) - x = 1 / 2 := by
        rcases abs_eq (by norm_num : (0 : ℚ) ≤ 1 / 2) |>.mp h with h' | h'
        · exact h'
        · linarith
      have hmpos : (0 : ℚ) < m := by linarith
      rw [abs_of_nonneg hx', abs_of_pos hmpos]
      linarith

theorem mathRound_intCast (k : ℤ) : mathRound (k : ℚ) = k := by
  have half : ⌊(1 / 2 : ℚ)⌋ = 0 := by
    rw [Int.floor_eq_iff]; norm_num
  unfold mathRound
  split
  · have e : -(k : ℚ) + 1 / 2 = ((-k : ℤ) : ℚ) + 1 / 2 := by push_cast; ring
    rw [e, Int.floor_int_add, half]; simp
  · rw [Int.floor_int_add, half]; simp

theorem calculateDeviationPercentage_cold :
    calculateDeviationPercentage (-25) (-10) = -150 := by
  unfold calculateDeviationPercentage mathAbs
  norm_num

theorem CalculatePriority_cold :
    CalculatePriority coldAlert [coldAlert] = { coldAlert with Priority := -12 } := by
  have hs : severityScore coldAlert.Severity = 1 := by decide
  have hc : countAffectedComponents [coldAlert] coldAlert = 1 := by decide
  have hd : calculateDeviationPercentage coldAlert.Value coldAlert.Threshold = -150 :=
    calculateDeviationPercentage_cold
  have hr : mathRound ((1 * 1 + -150 * (1 / 10) + ((1 : ℕ) : ℚ) * 2) * 100) = -1200 := by
    have e : ((1 : ℚ) * 1 + -150 * (1 / 10) + ((1 : ℕ) : ℚ) * 2) * 100 = ((-1200 : ℤ) : ℚ) := by
      norm_num
    rw [e, mathRound_intCast]
  unfold CalculatePriority
  simp only [hs, hc, hd, hr]
  norm_num

theorem CalculatePriority_latency_scenario :
    (CalculatePriority latencyAlert [latencyAlert]).Priority = 25 := by
  have hs : severityScore latencyAlert.Severity = 10 := by decide
  have hc : countAffectedComponents [latencyAlert] latencyAlert = 1 := by decide
  have hd : calculateDeviationPercentage latencyAlert.Value latencyAlert.Threshold = 130 := by
    unfold calculateDeviationPercentage mathAbs latencyAlert mkAlert
    norm_num
  have hr : mathRound ((10 * 1 + 130 * (1 / 10) + ((1 : ℕ) : ℚ) * 2) * 100) = 2500 := by
    have e : ((10 : ℚ) * 1 + 130 * (1 / 10) + ((1 : ℕ) : ℚ) * 2) * 100 = ((2500 : ℤ) : ℚ) := by
      norm_num
    rw [e, mathRound_intCast]
  unfold CalculatePriority
  simp only [hs, hc, hd, hr]
  norm_num

theorem calculateDeviationPercentage_bounds_of_nonneg (value threshold : ℚ)
    (h : 0 ≤ threshold) :
    0 ≤ calculateDeviationPercentage value threshold ∧
    calculateDeviationPercentage value threshold ≤ 1000 := by
  unfold calculateDeviationPercentage
  split
  · norm_num
  · rename_i hne
    have hpos : 0 < threshold := lt_of_le_of_ne h (Ne.symm hne)
    have habs : 0 ≤ mathAbs (value - threshold) := by
      unfold mathAbs
      split
      · linarith
      · linarith
    have hq : 0 ≤ mathAbs (value - threshold) / threshold * 100 :=
      mul_nonneg (div_nonneg habs (le_of_lt hpos)) (by norm_num)
    simp only []
    split
    · norm_num
    · rename_i hle
      exact ⟨hq, not_lt.mp hle⟩

theorem calculateDeviationPercentage_le (value threshold : ℚ) :
    calculateDeviationPercentage value threshold ≤ 1000 := by
  unfold calculateDeviationPercentage
  split
  · norm_num
  · simp only []
    split
    · norm_num
    · rename_i hle
      exact not_lt.mp hle

/-! ## Sorting: routines that meet the contract of `sort.Slice` -/

theorem priorityLess_transitiveOrdering : TransitiveOrdering priorityLess := by
  refine ⟨?_, ?_, ?_⟩
  · intro a; simp [priorityLess]
  · intro a b c h1 h2
    simp only [priorityLess, gt_iff_lt, decide_eq_true_eq] at *
    exact lt_trans h2 h1
  · intro a b c h1 h2
    simp only [priorityLess, gt_iff_lt, decide_eq_false_iff_not, not_lt] at *
    exact le_trans h1 h2

theorem insertLeft_perm (less : Alert → Alert → Bool) (x : Alert) :
    ∀ l : List Alert, (insertLeft less x l).Perm (x :: l) := by
  intro l
  induction l with
  | nil => exact List.Perm.refl _
  | cons y ys ih =>
    unfold insertLeft
    split
    · exact List.Perm.refl _
    · exact ((List.Perm.cons y ih).trans (List.Perm.swap x y ys))

theorem insertionSortSlice_perm (less : Alert → Alert → Bool) :
    ∀ l : Alerts, (insertionSortSlice less l).Perm l := by
  intro l
  induction l with
  | nil => exact List.Perm.refl _
  | cons x xs ih =>
    unfold insertionSortSlice
    exact (insertLeft_perm less x _).trans (List.Perm.cons x ih)

theorem insertLeft_pairwise (less : Alert → Alert → Bool) (hless : TransitiveOrdering less)
    (x : Alert) : ∀ l : List Alert, l.Pairwise (fun a b => less b a = false) →
      (insertLeft less x l).Pairwise (fun a b => less b a = false) := by
  obtain ⟨hirr, htr, hneg⟩ := hless
  intro l
  induction l with
  | nil => intro _; simp [insertLeft]
  | cons y ys ih =>
    intro hp
    rw [List.pairwise_cons] at hp
    unfold insertLeft
    split
    · rename_i hyx
      rw [List.pairwise_cons]
      refine ⟨?_, List.pairwise_cons.mpr hp⟩
      intro b hb
      rcases List.mem_cons.mp hb with rfl | hb
      · exact hyx
      · exact hneg b y x (hp.1 b hb) hyx
    · rename_i hyx
      have hyx' : less y x = true := by
        cases h : less y x
        · exact absurd h hyx
        · rfl
      rw [List.pairwise_cons]
      refine ⟨?_, ih hp.2⟩
      intro b hb
      rcases List.mem_cons.mp ((insertLeft_perm less x ys).subset hb) with rfl | hb
      · cases h : less b y
        · rfl
        · have := htr y b y hyx' h
          rw [hirr y] at this
          exact absurd this (by simp)
      · exact hp.1 b hb

theorem insertionSortSlice_pairwise (less : Alert → Alert → Bool)
    (hless : TransitiveOrdering less) :
    ∀ l : Alerts, (insertionSortSlice less l).Pairwise (fun a b => less b a = false) := by
  intro l
  induction l with
  | nil => simp [insertionSortSlice]
  | cons x xs ih =>
    unfold insertionSortSlice
    exact insertLeft_pairwise less hless x _ ih

theorem insertionSortSlice_contract : SortSliceContract insertionSortSlice :=
  fun less xs hless => ⟨insertionSortSlice_perm less xs, insertionSortSlice_pairwise less hless xs⟩

theorem reversingSortSlice_contract : SortSliceContract reversingSortSlice :=
  fun less xs hless =>
    ⟨(insertionSortSlice_perm less xs.reverse).trans (List.reverse_perm xs),
     insertionSortSlice_pairwise less hless xs.reverse⟩

/-! ## Grouping: the loop of `Group` -/

theorem appendToGroup_flatten_perm (k : String) (a : Alert) :
    ∀ G : GroupMap, ((appendToGroup G k a).map Prod.snd).flatten.Perm
      ((G.map Prod.snd).flatten ++ [a]) := by
  intro G
  induction G with
  | nil => simp [appendToGroup]
  | cons kg rest ih =>
    obtain ⟨k', g⟩ := kg
    unfold appendToGroup
    split
    · simp only [List.map_cons, List.flatten_cons, List.append_assoc]
      exact List.Perm.append_left g List.perm_append_comm
    · simp only [List.map_cons, List.flatten_cons, List.append_assoc]
      exact List.Perm.append_left g ih

theorem appendToGroup_keys (k : String) (a : Alert) :
    ∀ G : GroupMap, (appendToGroup G k a).map Prod.fst =
      if k ∈ G.map Prod.fst then G.map Prod.fst else G.map Prod.fst ++ [k] := by
  intro G
  induction G with
  | nil => simp [appendToGroup]
  | cons kg rest ih =>
    obtain ⟨k', g⟩ := kg
    unfold appendToGroup
    by_cases h : k' = k
    · simp [h]
    · have h' : ¬ k = k' := fun e => h e.symm
      simp only [h, if_false, List.map_cons, ih, List.mem_cons, h', false_or]
      split <;> simp

theorem appendToGroup_keys_nodup (k : String) (a : Alert) (G : GroupMap)
    (h : (G.map Prod.fst).Nodup) : ((appendToGroup G k a).map Prod.fst).Nodup := by
  rw [appendToGroup_keys]
  split
  · exact h
  · rename_i hk
    rw [List.nodup_append]
    refine ⟨h, List.nodup_singleton k, ?_⟩
    intro x hx hx'
    rw [List.mem_singleton] at hx'
    exact hk (hx' ▸ hx)

theorem appendToGroup_members (P : String → Alert → Prop) (k : String) (a : Alert)
    (hka : P k a) : ∀ G : GroupMap, (∀ kg ∈ G, ∀ x ∈ kg.2, P kg.1 x) →
      ∀ kg ∈ appendToGroup G k a, ∀ x ∈ kg.2, P kg.1 x := by
  intro G
  induction G with
  | nil =>
    intro _ kg hkg x hx
    simp only [appendToGroup, List.mem_singleton] at hkg
    subst hkg
    simp only [List.mem_singleton] at hx
    subst hx
    exact hka
  | cons kg' rest ih =>
    obtain ⟨k', g⟩ := kg'
    intro hG kg hkg x hx
    unfold appendToGroup at hkg
    split at hkg
    · rename_i hk
      rcases List.mem_cons.mp hkg with rfl | hmem
      · rcases List.mem_append.mp hx with hx | hx
        · exact hG (k', g) (List.mem_cons_self _ _) x hx
        · simp only [List.mem_singleton] at hx
          subst hx
          simpa [hk] using hka
      · exact hG kg (List.mem_cons_of_mem _ hmem) x hx
    · rcases List.mem_cons.mp hkg with rfl | hmem
      · exact hG (k', g) (List.mem_cons_self _ _) x hx
      · exact ih (fun kg h => hG kg (List.mem_cons_of_mem _ h)) kg hmem x hx

/-- The state of the loop of `Group` for a field that every alert has: what holds
of the mapping before the remaining alerts are added holds after. -/
theorem foldl_groupStep_invariant (fmtV : Int → String) (field : String)
    (key : Alert → String)
    (hkey : ∀ a, fieldKey fmtV a (stringsTitle field) = some (key a)) :
    ∀ (C : Alerts) (G : GroupMap),
      (G.map Prod.fst).Nodup → (∀ kg ∈ G, ∀ x ∈ kg.2, key x = kg.1) →
      (((C.foldl (groupStep fmtV field) G).map Prod.snd).flatten.Perm
          ((G.map Prod.snd).flatten ++ C)) ∧
      ((C.foldl (groupStep fmtV field) G).map Prod.fst).Nodup ∧
      (∀ kg ∈ C.foldl (groupStep fmtV field) G, ∀ x ∈ kg.2, key x = kg.1) := by
  intro C
  induction C with
  | nil =>
    intro G hnd hmem
    refine ⟨?_, hnd, hmem⟩
    simp
  | cons a C ih =>
    intro G hnd hmem
    have hstep : groupStep fmtV field G a = appendToGroup G (key a) a := by
      simp only [groupStep, hkey a]
    simp only [List.foldl_cons, hstep]
    obtain ⟨h1, h2, h3⟩ := ih (appendToGroup G (key a) a)
      (appendToGroup_keys_nodup _ _ _ hnd)
      (appendToGroup_members (fun k x => key x = k) (key a) a rfl G hmem)
    refine ⟨?_, h2, h3⟩
    refine h1.trans ?_
    have := (appendToGroup_flatten_perm (key a) a G).append_right C
    simpa [List.append_assoc] using this

theorem count_flatten_of_keyed (key : Alert → String) (a : Alert) :
    ∀ G : GroupMap, (G.map Prod.fst).Nodup → (∀ kg ∈ G, ∀ x ∈ kg.2, key x = kg.1) →
      ∀ kg ∈ G, a ∈ kg.2 →
        (G.map Prod.snd).flatten.count a = kg.2.count a ∧ ∀ kg2 ∈ G, a ∈ kg2.2 → kg2 = kg := by
  intro G
  induction G with
  | nil => intro _ _ kg hkg; simp at hkg
  | cons h t ih =>
    intro hnd hmem kg hkg ha
    rw [List.map_cons, List.nodup_cons] at hnd
    have hmemt : ∀ kg ∈ t, ∀ x ∈ kg.2, key x = kg.1 :=
      fun kg hk => hmem kg (List.mem_cons_of_mem _ hk)
    have hkeya : key a = kg.1 := hmem kg hkg a ha
    -- a group of the tail that holds `a` has the key of `a`, which is a key of the tail
    have htail : ∀ kg2 ∈ t, a ∈ kg2.2 → key a ∈ t.map Prod.fst := by
      intro kg2 hk2 ha2
      rw [hmemt kg2 hk2 a ha2]
      exact List.mem_map_of_mem _ hk2
    rcases List.mem_cons.mp hkg with rfl | hkt
    · have hnot : a ∉ (t.map Prod.snd).flatten := by
        intro hin
        obtain ⟨l, hl, hal⟩ := List.mem_flatten.mp hin
        obtain ⟨kg2, hk2, rfl⟩ := List.mem_map.mp hl
        exact hnd.1 (hkeya ▸ htail kg2 hk2 hal)
      refine ⟨?_, ?_⟩
      · simp [List.count_eq_zero_of_not_mem hnot]
      · intro kg2 hk2 ha2
        rcases List.mem_cons.mp hk2 with rfl | hk2t
        · rfl
        · exact absurd (hkeya ▸ htail kg2 hk2t ha2) hnd.1
    · have hh : a ∉ h.2 := by
        intro hah
        have e : key a = h.1 := hmem h (List.mem_cons_self _ _) a hah
        exact hnd.1 (e ▸ htail kg hkt ha)
      obtain ⟨hc, hu⟩ := ih hnd.2 hmemt kg hkt ha
      refine ⟨?_, ?_⟩
      · simp [List.count_eq_zero_of_not_mem hh, hc]
      · intro kg2 hk2 ha2
        rcases List.mem_cons.mp hk2 with rfl | hk2t
        · exact absurd ha2 hh
        · exact hu kg2 hk2t ha2

/-! ## The claims of the specification -/

/-- C1 (code defect). The contract counts the distinct components alerting on
the target's (service, metric) pair, the target's own component once. On
`twinBatch`, whose two alerts come from the same component, the target is the
first alert of the batch, the pair has one distinct component, and
`countAffectedComponents` answers 2: the component of the target is in the set
built from the other alert and is counted again by the final `+ 1`. -/
theorem countAffectedComponents_counts_own_component_twice :
    mkAlert "ALT-1" "svc" "api" "critical" "latency" 100 50 ∈ twinBatch ∧
    distinctComponentsOnPair twinBatch
      (mkAlert "ALT-1" "svc" "api" "critical" "latency" 100 50) = 1 ∧
    countAffectedComponents twinBatch
      (mkAlert "ALT-1" "svc" "api" "critical" "latency" 100 50) = 2 := by
  decide

/-- C2 (code defect). The deviation percentage is meant to lie in [0, 1000]; for
the value -25 and the negative threshold -10 the function returns -150, which
is below 0: the absolute deviation is divided by the threshold itself. -/
theorem calculateDeviationPercentage_negative_threshold :
    calculateDeviationPercentage (-25) (-10) = -150 ∧
    ¬ (0 ≤ calculateDeviationPercentage (-25) (-10) ∧
        calculateDeviationPercentage (-25) (-10) ≤ 1000) := by
  rw [calculateDeviationPercentage_cold]
  norm_num

/-- C3 (code defect). After `CalculateAllPriorities` every priority is meant to
be at least 3; the batch made of `coldAlert` alone (info, value -25, threshold
-10) comes out with priority 1 - 15 + 2 = -12. -/
theorem CalculateAllPriorities_negative_priority :
    CalculateAllPriorities [coldAlert] = [{ coldAlert with Priority := -12 }] ∧
    ¬ (∀ a ∈ CalculateAllPriorities [coldAlert], 3 ≤ a.Priority) := by
  have h : CalculateAllPriorities [coldAlert] = [CalculatePriority coldAlert [coldAlert]] := rfl
  rw [h, CalculatePriority_cold]
  refine ⟨rfl, ?_⟩
  intro hall
  have h3 := hall _ (List.mem_singleton_self _)
  norm_num at h3

/-- The score in the exact arithmetic of the embedding. For every collection `C`
and alert `a`, `CalculatePriority` leaves every field but the priority as it is
and sets the priority to `k / 100`, where the integer `k` is
`100 * (S + 0.1 * D + 2 * A)` rounded half away from zero, `S` is 10 when the
lower-cased severity is "critical", 5 when it is "warning" and 1 for "info" and
every other string, `D` is the deviation percentage and `A` the
affected-component count. This is a statement about rational numbers: in
`float64` the sum and the product by 100 carry a rounding error, and at a score
that ends in a half of a hundredth the program can round the other way. -/
theorem CalculatePriority_formula (C : Alerts) (a : Alert) :
    (stringsToLower a.Severity = "critical" → severityScore a.Severity = 10) ∧
    (stringsToLower a.Severity = "warning" → severityScore a.Severity = 5) ∧
    (stringsToLower a.Severity = "info" → severityScore a.Severity = 1) ∧
    (stringsToLower a.Severity ≠ "critical" → stringsToLower a.Severity ≠ "warning" →
      severityScore a.Severity = 1) ∧
    (∃ k : ℤ,
      RoundsHalfAway
        (100 * (severityScore a.Severity +
          (1 / 10) * calculateDeviationPercentage a.Value a.Threshold +
          2 * (countAffectedComponents C a : ℚ))) k ∧
      (CalculatePriority a C).Priority = (k : ℚ) / 100 ∧
      (CalculatePriority a C).Priority * 100 = (k : ℚ)) ∧
    CalculatePriority a C = { a with Priority := (CalculatePriority a C).Priority } := by
  refine ⟨?_, ?_, ?_, ?_, ?_, rfl⟩
  · intro h; simp [severityScore, h]
  · intro h; simp [severityScore, h]
  · intro h; simp [severityScore, h]
  · intro h1 h2; simp [severityScore, h1, h2]
  · refine ⟨mathRound ((severityScore a.Severity * 1 +
        calculateDeviationPercentage a.Value a.Threshold * (1 / 10) +
        (countAffectedComponents C a : ℚ) * 2) * 100), ?_, rfl, ?_⟩
    · have h := mathRound_roundsHalfAway ((severityScore a.Severity * 1 +
        calculateDeviationPercentage a.Value a.Threshold * (1 / 10) +
        (countAffectedComponents C a : ℚ) * 2) * 100)
      have e : (severityScore a.Severity * 1 +
        calculateDeviationPercentage a.Value a.Threshold * (1 / 10) +
        (countAffectedComponents C a : ℚ) * 2) * 100 =
        100 * (severityScore a.Severity +
          (1 / 10) * calculateDeviationPercentage a.Value a.Threshold +
          2 * (countAffectedComponents C a : ℚ)) := by ring
      rw [e] at h
      rw [e]
      exact h
    · simp [CalculatePriority]

/-- C5. For every collection `C`, `CalculateAllPriorities`, which scores the
alerts one after the other in place, gives the collection of the same length and
order in which the alert at every index is the alert of `C` at that index with
only its priority replaced, by the priority that `CalculatePriority` computes
for it against the original `C`. -/
theorem CalculateAllPriorities_frame (C : Alerts) :
    CalculateAllPriorities C =
      C.map (fun a => { a with Priority := (CalculatePriority a C).Priority }) ∧
    (CalculateAllPriorities C).length = C.length ∧
    (∀ i : Nat, (CalculateAllPriorities C)[i]? =
      (C[i]?).map (fun a => { a with Priority := (CalculatePriority a C).Priority })) := by
  have h : CalculateAllPriorities C =
      C.map (fun a => { a with Priority := (CalculatePriority a C).Priority }) :=
    CalculateAllPriorities_eq_map C
  refine ⟨h, ?_, ?_⟩
  · rw [h, List.length_map]
  · intro i
    rw [h, List.getElem?_map]

/-- C6. `CalculateAllPriorities` is idempotent: a second pass over the scored
collection leaves it as the first pass made it. -/
theorem CalculateAllPriorities_idempotent (C : Alerts) :
    CalculateAllPriorities (CalculateAllPriorities C) = CalculateAllPriorities C := by
  rw [CalculateAllPriorities_eq_map (CalculateAllPriorities C), CalculateAllPriorities_eq_map C,
    List.map_map]
  apply List.map_congr_left
  intro a _
  simp only [Function.comp_apply]
  rw [CalculatePriority_CalculatePriority]
  apply CalculatePriority_congr
  rw [List.map_map]
  apply List.map_congr_left
  intro b _
  rfl

/-- C7. For every collection `C` and every routine `sortSlice` that does what
the documentation of `sort.Slice` promises, the result of `SortByPriority` is a
permutation of `C` in which no alert has a lower priority than an alert placed
after it. -/
theorem SortByPriority_sorted_perm
    (sortSlice : (Alert → Alert → Bool) → Alerts → Alerts)
    (hsort : SortSliceContract sortSlice) (C : Alerts) :
    (SortByPriority sortSlice C).Perm C ∧
    (SortByPriority sortSlice C).Pairwise (fun a b => a.Priority ≥ b.Priority) := by
  obtain ⟨hperm, hpw⟩ := hsort priorityLess C priorityLess_transitiveOrdering
  refine ⟨hperm, ?_⟩
  refine List.Pairwise.imp ?_ hpw
  intro a b h
  simpa [priorityLess] using h

/-- C7 at a concrete input: the insertion sort meets the contract of
`sort.Slice`, and with it `tieBatch` is sorted as C7 says. -/
theorem SortByPriority_sorted_perm_witness :
    SortSliceContract insertionSortSlice ∧
    (SortByPriority insertionSortSlice tieBatch).Perm tieBatch ∧
    (SortByPriority insertionSortSlice tieBatch).Pairwise
      (fun a b => a.Priority ≥ b.Priority) :=
  ⟨insertionSortSlice_contract,
   SortByPriority_sorted_perm insertionSortSlice insertionSortSlice_contract tieBatch⟩

/-- C8 as stated fails. The routine `reversingSortSlice` does everything the
documentation of `sort.Slice` promises, and with it `SortByPriority` does not
keep the twelve alerts of priority 5 of `tieBatch` in their input order. -/
theorem SortByPriority_ties_reordered :
    SortSliceContract reversingSortSlice ∧
    ¬ TiesKeepOrder tieBatch (SortByPriority reversingSortSlice tieBatch) := by
  refine ⟨reversingSortSlice_contract, ?_⟩
  intro h
  have h5 := congrArg (fun l => l.map (fun a => a.ID)) (h 5)
  revert h5
  decide

/-- C8 as amended. For every collection `C`, every routine `sortSlice` that does
what the documentation of `sort.Slice` promises and every priority value `p`,
the alerts of priority `p` in the result of `SortByPriority` are the alerts of
priority `p` of `C`, each as many times as in `C`; their order among themselves
is not fixed. -/
theorem SortByPriority_ties_perm
    (sortSlice : (Alert → Alert → Bool) → Alerts → Alerts)
    (hsort : SortSliceContract sortSlice) (C : Alerts) (p : ℚ) :
    ((SortByPriority sortSlice C).filter (fun a => a.Priority = p)).Perm
      (C.filter (fun a => a.Priority = p)) :=
  (hsort priorityLess C priorityLess_transitiveOrdering).1.filter _

/-- C8 as amended, at a concrete input: the reversing sort meets the contract of
`sort.Slice`, and with it the alerts of priority 5 of `tieBatch` are kept as a
multiset. -/
theorem SortByPriority_ties_perm_witness :
    SortSliceContract reversingSortSlice ∧
    ((SortByPriority reversingSortSlice tieBatch).filter (fun a => a.Priority = 5)).Perm
      (tieBatch.filter (fun a => a.Priority = 5)) :=
  ⟨reversingSortSlice_contract,
   SortByPriority_ties_perm reversingSortSlice reversingSortSlice_contract tieBatch 5⟩

/-- C10. For every collection `C`, the groups of `Group(C, "severity")`
partition `C`: the groups put one after the other are a permutation of `C`, the
keys are pairwise distinct, every member of a group has the severity that is
the key of the group, every alert of `C` is in one group only and as many times
there as in `C`, and the sizes of the groups add up to the length of `C`. -/
theorem Group_severity_partition (fmtV : Int → String) (C : Alerts) :
    ((Group fmtV C "severity").map Prod.snd).flatten.Perm C ∧
    ((Group fmtV C "severity").map Prod.fst).Nodup ∧
    (∀ kg ∈ Group fmtV C "severity", ∀ a ∈ kg.2, a.Severity = kg.1) ∧
    (∀ a ∈ C, ∃ kg ∈ Group fmtV C "severity", kg.2.count a = C.count a ∧
      ∀ kg2 ∈ Group fmtV C "severity", a ∈ kg2.2 → kg2 = kg) ∧
    ((Group fmtV C "severity").map (fun kg => kg.2.length)).sum = C.length := by
  have ht : stringsTitle "severity" = "Severity" := by decide
  have hkey : ∀ a, fieldKey fmtV a (stringsTitle "severity") = some a.Severity := by
    intro a; rw [ht]; rfl
  obtain ⟨h1, h2, h3⟩ := foldl_groupStep_invariant fmtV "severity" (fun a => a.Severity) hkey C []
    (by simp) (by simp)
  have h1' : ((Group fmtV C "severity").map Prod.snd).flatten.Perm C := by
    simpa [Group] using h1
  refine ⟨h1', h2, h3, ?_, ?_⟩
  · intro a ha
    obtain ⟨l, hl, hal⟩ := List.mem_flatten.mp (h1'.mem_iff.mpr ha)
    obtain ⟨kg, hkg, rfl⟩ := List.mem_map.mp hl
    obtain ⟨hc, hu⟩ := count_flatten_of_keyed (fun a => a.Severity) a _ h2 h3 kg hkg hal
    exact ⟨kg, hkg, by rw [← hc]; exact h1'.count_eq a, hu⟩
  · have hl := h1'.length_eq
    rw [List.length_flatten, List.map_map] at hl
    exact hl

/-! ## Filtering: the append loops of `filter.go` -/

theorem foldl_append_if (p : Alert → Prop) [DecidablePred p] :
    ∀ (xs acc : Alerts),
      xs.foldl (fun filtered alert => if p alert then filtered ++ [alert] else filtered) acc =
        acc ++ xs.filter (fun a => p a) := by
  intro xs
  induction xs with
  | nil => intro acc; simp
  | cons x xs ih =>
    intro acc
    simp only [List.foldl_cons]
    rw [ih]
    by_cases hx : p x
    · simp [hx, List.filter_cons]
    · simp [hx, List.filter_cons]

theorem FilterBySeverity_eq_filter (C : Alerts) (s : String) :
    FilterBySeverity C s = C.filter (fun a => a.Severity = s) := by
  unfold FilterBySeverity
  rw [foldl_append_if (fun a => a.Severity = s)]
  simp

theorem FilterByService_eq_filter (C : Alerts) (s : String) :
    FilterByService C s = C.filter (fun a => a.Service = s) := by
  unfold FilterByService
  rw [foldl_append_if (fun a => a.Service = s)]
  simp

theorem FilterByLastMinutes_eq_filter (now : Int) (C : Alerts) (minutes : Int) :
    FilterByLastMinutes now C minutes =
      C.filter (fun a => a.Timestamp > now + windowDuration minutes) := by
  unfold FilterByLastMinutes
  simp only []
  rw [foldl_append_if (fun a => a.Timestamp > now + windowDuration minutes)]
  simp

theorem windowDuration_of_le (N : Int) (h0 : 0 < N) (hmax : N ≤ 153722867) :
    windowDuration N = -(N * timeMinute) := by
  unfold windowDuration wrapInt64 timeMinute
  have e1 : (-N + 2 ^ 63) % 2 ^ 64 - 2 ^ 63 = -N := by
    norm_num
    omega
  rw [e1]
  norm_num
  omega

/-! ## Grouping by a string-valued field -/

theorem mem_appendToGroup (k : String) (a : Alert) :
    ∀ G : GroupMap, (G.map Prod.fst).Nodup → ∀ kg ∈ appendToGroup G k a,
      (kg ∈ G ∧ kg.1 ≠ k) ∨ (∃ g0, (k, g0) ∈ G ∧ kg = (k, g0 ++ [a])) ∨
      (k ∉ G.map Prod.fst ∧ kg = (k, [a])) := by
  intro G
  induction G with
  | nil =>
    intro _ kg hkg
    simp only [appendToGroup, List.mem_singleton] at hkg
    exact Or.inr (Or.inr ⟨by simp, hkg⟩)
  | cons h t ih =>
    obtain ⟨k', g⟩ := h
    intro hnd kg hkg
    rw [List.map_cons, List.nodup_cons] at hnd
    unfold appendToGroup at hkg
    split at hkg
    · rename_i hk
      rcases List.mem_cons.mp hkg with rfl | hmem
      · exact Or.inr (Or.inl ⟨g, by simp [hk], by simp [hk]⟩)
      · refine Or.inl ⟨List.mem_cons_of_mem _ hmem, ?_⟩
        intro e
        apply hnd.1
        have : kg.1 ∈ t.map Prod.fst := List.mem_map_of_mem _ hmem
        simpa [hk, e] using this
    · rename_i hk
      rcases List.mem_cons.mp hkg with rfl | hmem
      · exact Or.inl ⟨List.mem_cons_self _ _, hk⟩
      · rcases ih hnd.2 kg hmem with ⟨h1, h2⟩ | ⟨g0, h1, h2⟩ | ⟨h1, h2⟩
        · exact Or.inl ⟨List.mem_cons_of_mem _ h1, h2⟩
        · exact Or.inr (Or.inl ⟨g0, List.mem_cons_of_mem _ h1, h2⟩)
        · refine Or.inr (Or.inr ⟨?_, h2⟩)
          simp only [List.map_cons, List.mem_cons, not_or]
          exact ⟨fun e => hk e.symm, h1⟩

theorem Group_groupsByStringField (fmtV : Int → String) (field : String) (key : Alert → String)
    (hkey : ∀ a, fieldKey fmtV a (stringsTitle field) = some (key a)) (C : Alerts) :
    GroupsByStringField (Group fmtV C field) C key := by
  induction C using List.reverseRecOn with
  | nil => exact ⟨by simp [Group], by simp [Group], by simp [Group]⟩
  | append_singleton C a ih =>
    obtain ⟨hnd, hkeys, hgrp⟩ := ih
    have hstep : Group fmtV (C ++ [a]) field = appendToGroup (Group fmtV C field) (key a) a := by
      simp only [Group, List.foldl_append, List.foldl_cons, List.foldl_nil, groupStep, hkey a]
    rw [hstep]
    refine ⟨appendToGroup_keys_nodup _ _ _ hnd, ?_, ?_⟩
    · intro k
      rw [appendToGroup_keys]
      constructor
      · intro hk
        split at hk
        · obtain ⟨x, hx, hxk⟩ := (hkeys k).mp hk
          exact ⟨x, List.mem_append_left _ hx, hxk⟩
        · rcases List.mem_append.mp hk with hk | hk
          · obtain ⟨x, hx, hxk⟩ := (hkeys k).mp hk
            exact ⟨x, List.mem_append_left _ hx, hxk⟩
          · rw [List.mem_singleton] at hk
            exact ⟨a, by simp, hk.symm⟩
      · rintro ⟨x, hx, hxk⟩
        rcases List.mem_append.mp hx with hx | hx
        · have hk : k ∈ (Group fmtV C field).map Prod.fst := (hkeys k).mpr ⟨x, hx, hxk⟩
          split
          · exact hk
          · exact List.mem_append_left _ hk
        · rw [List.mem_singleton] at hx
          subst hx
          split
          · rename_i h; exact hxk ▸ h
          · exact List.mem_append_right _ (by simp [hxk])
    · intro kg hkg
      rcases mem_appendToGroup (key a) a _ hnd kg hkg with ⟨h1, h2⟩ | ⟨g0, h1, h2⟩ | ⟨h1, h2⟩
      · rw [hgrp kg h1, List.filter_append]
        have : ¬ key a = kg.1 := fun e => h2 e.symm
        simp [List.filter_cons, this]
      · subst h2
        have := hgrp _ h1
        simp only at this
        simp [List.filter_append, this, List.filter_cons]
      · subst h2
        have hnone : C.filter (fun x => key x = key a) = [] := by
          rw [List.filter_eq_nil_iff]
          intro x hx hxa
          exact h1 ((hkeys (key a)).mpr ⟨x, hx, by simpa using hxa⟩)
        simp [List.filter_append, hnone, List.filter_cons]

/-! ## The component count as a set size -/

theorem foldl_componentStep_spec (t : Alert) :
    ∀ (xs : Alerts) (s : List String), s.Nodup →
      (xs.foldl (componentStep t) s).Nodup ∧
      ∀ c, c ∈ xs.foldl (componentStep t) s ↔
        c ∈ s ∨ ∃ a ∈ xs, (a.Service = t.Service ∧ a.Metric = t.Metric ∧ a.ID ≠ t.ID) ∧
          a.Component = c := by
  intro xs
  induction xs with
  | nil => intro s hs; simpa using hs
  | cons x xs ih =>
    intro s hs
    simp only [List.foldl_cons]
    have hstep : (componentStep t s x).Nodup ∧ ∀ c, c ∈ componentStep t s x ↔
        c ∈ s ∨ ((x.Service = t.Service ∧ x.Metric = t.Metric ∧ x.ID ≠ t.ID) ∧
          x.Component = c) := by
      unfold componentStep
      by_cases hc : x.Service = t.Service ∧ x.Metric = t.Metric ∧ x.ID ≠ t.ID
      · rw [if_pos hc]
        by_cases hm : x.Component ∈ s
        · rw [if_pos hm]
          refine ⟨hs, fun c => ⟨Or.inl, ?_⟩⟩
          rintro (h | ⟨_, rfl⟩)
          · exact h
          · exact hm
        · rw [if_neg hm]
          refine ⟨List.nodup_cons.mpr ⟨hm, hs⟩, fun c => ?_⟩
          rw [List.mem_cons]
          constructor
          · rintro (rfl | h)
            · exact Or.inr ⟨hc, rfl⟩
            · exact Or.inl h
          · rintro (h | ⟨_, rfl⟩)
            · exact Or.inr h
            · exact Or.inl rfl
      · rw [if_neg hc]
        refine ⟨hs, fun c => ⟨Or.inl, ?_⟩⟩
        rintro (h | ⟨h, _⟩)
        · exact h
        · exact absurd h hc
    obtain ⟨h1, h2⟩ := ih (componentStep t s x) hstep.1
    refine ⟨h1, fun c => ?_⟩
    rw [h2 c, hstep.2 c]
    constructor
    · rintro ((h | ⟨hc, rfl⟩) | ⟨a, ha, hc, rfl⟩)
      · exact Or.inl h
      · exact Or.inr ⟨x, List.mem_cons_self _ _, hc, rfl⟩
      · exact Or.inr ⟨a, List.mem_cons_of_mem _ ha, hc, rfl⟩
    · rintro (h | ⟨a, ha, hc, rfl⟩)
      · exact Or.inl (Or.inl h)
      · rcases List.mem_cons.mp ha with rfl | ha
        · exact Or.inl (Or.inr ⟨hc, rfl⟩)
        · exact Or.inr ⟨a, ha, hc, rfl⟩

theorem countAffectedComponents_eq (C : Alerts) (t : Alert) :
    countAffectedComponents C t = 1 + (otherComponents C t).length := by
  obtain ⟨hnd, hmem⟩ := foldl_componentStep_spec t C [] List.nodup_nil
  have hperm : (C.foldl (componentStep t) []).Perm (otherComponents C t) := by
    have hnd2 : (otherComponents C t).Nodup := List.nodup_dedup _
    rw [List.perm_ext_iff_of_nodup hnd hnd2]
    intro c
    rw [hmem c]
    simp only [otherComponents, List.mem_dedup, List.mem_map, List.mem_filter,
      List.not_mem_nil, false_or, decide_eq_true_eq]
    constructor
    · rintro ⟨a, ha, hc, rfl⟩
      exact ⟨a, ⟨ha, hc⟩, rfl⟩
    · rintro ⟨a, ⟨ha, hc⟩, rfl⟩
      exact ⟨a, ha, hc, rfl⟩
  unfold countAffectedComponents
  rw [hperm.length_eq, Nat.add_comm]

theorem otherComponents_perm (C D : Alerts) (t : Alert) (h : C.Perm D) :
    (otherComponents C t).Perm (otherComponents D t) := by
  unfold otherComponents
  exact ((h.filter _).map _).dedup

theorem countAffectedComponents_perm (C D : Alerts) (t : Alert) (h : C.Perm D) :
    countAffectedComponents C t = countAffectedComponents D t := by
  rw [countAffectedComponents_eq, countAffectedComponents_eq,
    (otherComponents_perm C D t h).length_eq]

theorem CalculatePriority_perm (C D : Alerts) (a : Alert) (h : C.Perm D) :
    CalculatePriority a C = CalculatePriority a D := by
  simp only [CalculatePriority, countAffectedComponents_perm C D a h]

/-! ## Scores with a zero threshold, and the gap between severities -/

theorem severityScore_cases (s : String) :
    severityScore s = 10 ∨ severityScore s = 5 ∨ severityScore s = 1 := by
  unfold severityScore
  simp only []
  split
  · exact Or.inl rfl
  · split
    · exact Or.inr (Or.inl rfl)
    · split
      · exact Or.inr (Or.inr rfl)
      · exact Or.inr (Or.inr rfl)

theorem severityScore_int (s : String) : ∃ n : ℤ, severityScore s = (n : ℚ) := by
  rcases severityScore_cases s with h | h | h
  · exact ⟨10, by rw [h]; norm_num⟩
  · exact ⟨5, by rw [h]; norm_num⟩
  · exact ⟨1, by rw [h]; norm_num⟩

theorem calculateDeviationPercentage_zero (v : ℚ) : calculateDeviationPercentage v 0 = 0 := by
  simp [calculateDeviationPercentage]

theorem CalculatePriority_of_threshold_zero (a : Alert) (C : Alerts) (h : a.Threshold = 0) :
    CalculatePriority a C =
      { a with Priority := severityScore a.Severity + 2 * (countAffectedComponents C a : ℚ) } := by
  obtain ⟨n, hn⟩ := severityScore_int a.Severity
  have e : (severityScore a.Severity * 1 +
      calculateDeviationPercentage a.Value a.Threshold * (1 / 10) +
      ((countAffectedComponents C a : ℕ) : ℚ) * 2) * 100 =
      (((n + 2 * (countAffectedComponents C a : ℤ)) * 100 : ℤ) : ℚ) := by
    rw [h, calculateDeviationPercentage_zero, hn]
    push_cast
    ring
  have hp : (CalculatePriority a C).Priority =
      severityScore a.Severity + 2 * (countAffectedComponents C a : ℚ) := by
    show ((mathRound ((severityScore a.Severity * 1 +
      calculateDeviationPercentage a.Value a.Threshold * (1 / 10) +
      ((countAffectedComponents C a : ℕ) : ℚ) * 2) * 100) : ℤ) : ℚ) / 100 = _
    rw [e, mathRound_intCast, hn]
    push_cast
    ring
  have hs : CalculatePriority a C = { a with Priority := (CalculatePriority a C).Priority } := rfl
  rw [hs, hp]

theorem mathRound_add_int_of_nonneg (y : ℚ) (m : ℤ) (hy : 0 ≤ y) (hm : 0 ≤ m) :
    mathRound (y + m) = mathRound y + m := by
  have hm' : (0 : ℚ) ≤ (m : ℚ) := by exact_mod_cast hm
  unfold mathRound
  rw [if_neg (not_lt.mpr (add_nonneg hy hm')), if_neg (not_lt.mpr hy)]
  have e : y + (m : ℚ) + 1 / 2 = y + 1 / 2 + (m : ℚ) := by ring
  rw [e, Int.floor_add_int]

/-- In the exact arithmetic of the embedding, with a deviation percentage that
is not negative, the priorities of two alerts of equal deviation and equal
component count differ by the difference of their severity scores. -/
theorem CalculatePriority_severity_gap (a b : Alert) (C D : Alerts)
    (hd : calculateDeviationPercentage a.Value a.Threshold =
      calculateDeviationPercentage b.Value b.Threshold)
    (hc : countAffectedComponents C a = countAffectedComponents D b)
    (hnn : 0 ≤ calculateDeviationPercentage a.Value a.Threshold) :
    (CalculatePriority a C).Priority - (CalculatePriority b D).Priority =
      severityScore a.Severity - severityScore b.Severity := by
  obtain ⟨n, hn⟩ := severityScore_int a.Severity
  obtain ⟨k, hk⟩ := severityScore_int b.Severity
  have hn0 : 0 ≤ n := by
    have : (0 : ℚ) ≤ (n : ℚ) := by
      rw [← hn]; rcases severityScore_cases a.Severity with h | h | h <;> rw [h] <;> norm_num
    exact_mod_cast this
  have hk0 : 0 ≤ k := by
    have : (0 : ℚ) ≤ (k : ℚ) := by
      rw [← hk]; rcases severityScore_cases b.Severity with h | h | h <;> rw [h] <;> norm_num
    exact_mod_cast this
  set y : ℚ := (calculateDeviationPercentage a.Value a.Threshold * (1 / 10) +
    ((countAffectedComponents C a : ℕ) : ℚ) * 2) * 100 with hy
  have hy0 : 0 ≤ y := by
    have h2 : (0 : ℚ) ≤ ((countAffectedComponents C a : ℕ) : ℚ) := Nat.cast_nonneg _
    rw [hy]
    nlinarith
  have ea : (CalculatePriority a C).Priority = ((mathRound (y + ((n * 100 : ℤ) : ℚ)) : ℤ) : ℚ) / 100 := by
    show ((mathRound ((severityScore a.Severity * 1 +
      calculateDeviationPercentage a.Value a.Threshold * (1 / 10) +
      ((countAffectedComponents C a : ℕ) : ℚ) * 2) * 100) : ℤ) : ℚ) / 100 = _
    congr 3
    rw [hy, hn]; push_cast; ring
  have eb : (CalculatePriority b D).Priority = ((mathRound (y + ((k * 100 : ℤ) : ℚ)) : ℤ) : ℚ) / 100 := by
    show ((mathRound ((severityScore b.Severity * 1 +
      calculateDeviationPercentage b.Value b.Threshold * (1 / 10) +
      ((countAffectedComponents D b : ℕ) : ℚ) * 2) * 100) : ℤ) : ℚ) / 100 = _
    congr 3
    rw [hy, hk, ← hd, ← hc]; push_cast; ring
  rw [ea, eb, mathRound_add_int_of_nonneg y _ hy0 (by positivity),
    mathRound_add_int_of_nonneg y _ hy0 (by positivity), hn, hk]
  push_cast
  ring

theorem mathRound_tie_warning : mathRound (797 / 2) = 399 := by
  unfold mathRound
  rw [if_neg (by norm_num)]
  rw [Int.floor_eq_iff]
  norm_num

theorem mathRound_tie_info : mathRound (-3 / 2) = -2 := by
  unfold mathRound
  rw [if_pos (by norm_num)]
  have : ⌊-(-3 / 2 : ℚ) + 1 / 2⌋ = 2 := by
    rw [Int.floor_eq_iff]
    norm_num
  rw [this]

theorem calculateDeviationPercentage_tie :
    calculateDeviationPercentage (-1397) (-2000) = -603 / 20 := by
  unfold calculateDeviationPercentage mathAbs
  norm_num

/-! ## The pipeline of `processAlerts` on a sample batch -/

theorem CalculateAllPriorities_windowBatch :
    CalculateAllPriorities windowBatch = windowBatch.map (fun a => { a with Priority := 5 }) := by
  rw [CalculateAllPriorities_eq_map]
  apply List.map_congr_left
  intro a ha
  have h0 : a.Threshold = 0 := by
    revert a; decide
  have hs : severityScore a.Severity = 1 := by
    revert a; decide
  have hc : countAffectedComponents windowBatch a = 2 := by
    revert a; decide
  rw [CalculatePriority_of_threshold_zero a windowBatch h0, hs, hc]
  norm_num

theorem CalculateAllPriorities_recent :
    CalculateAllPriorities (FilterByLastMinutes 1000 windowBatch 30) =
      (FilterByLastMinutes 1000 windowBatch 30).map (fun a => { a with Priority := 3 }) := by
  rw [CalculateAllPriorities_eq_map]
  apply List.map_congr_left
  intro a ha
  have h0 : a.Threshold = 0 := by
    revert a; decide
  have hs : severityScore a.Severity = 1 := by
    revert a; decide
  have hc : countAffectedComponents (FilterByLastMinutes 1000 windowBatch 30) a = 1 := by
    revert a; decide
  rw [CalculatePriority_of_threshold_zero a _ h0, hs, hc]
  norm_num

/-! ## The claims of the specification, continued -/

/-- C11. For every collection `C` and each of the selectors severity, service,
component and metric, the keys of `Group` are the distinct values of that field
in `C`, each once, and the group of a key is the sub-sequence of `C`, in the
order of `C`, of the alerts whose field has that value; for severity it is
`FilterBySeverity(C, k)` and for service `FilterByService(C, k)`. -/
theorem Group_string_fields (fmtV : Int → String) (C : Alerts) :
    GroupsByStringField (Group fmtV C "severity") C (fun a => a.Severity) ∧
    GroupsByStringField (Group fmtV C "service") C (fun a => a.Service) ∧
    GroupsByStringField (Group fmtV C "component") C (fun a => a.Component) ∧
    GroupsByStringField (Group fmtV C "metric") C (fun a => a.Metric) ∧
    (∀ kg ∈ Group fmtV C "severity", kg.2 = FilterBySeverity C kg.1) ∧
    (∀ kg ∈ Group fmtV C "service", kg.2 = FilterByService C kg.1) := by
  have h1 : ∀ a, fieldKey fmtV a (stringsTitle "severity") = some a.Severity := by
    intro a
    have ht : stringsTitle "severity" = "Severity" := by decide
    rw [ht]; rfl
  have h2 : ∀ a, fieldKey fmtV a (stringsTitle "service") = some a.Service := by
    intro a
    have ht : stringsTitle "service" = "Service" := by decide
    rw [ht]; rfl
  have h3 : ∀ a, fieldKey fmtV a (stringsTitle "component") = some a.Component := by
    intro a
    have ht : stringsTitle "component" = "Component" := by decide
    rw [ht]; rfl
  have h4 : ∀ a, fieldKey fmtV a (stringsTitle "metric") = some a.Metric := by
    intro a
    have ht : stringsTitle "metric" = "Metric" := by decide
    rw [ht]; rfl
  have g1 := Group_groupsByStringField fmtV "severity" (fun a => a.Severity) h1 C
  have g2 := Group_groupsByStringField fmtV "service" (fun a => a.Service) h2 C
  refine ⟨g1, g2, Group_groupsByStringField fmtV "component" (fun a => a.Component) h3 C,
    Group_groupsByStringField fmtV "metric" (fun a => a.Metric) h4 C, ?_, ?_⟩
  · intro kg hkg
    rw [FilterBySeverity_eq_filter]
    exact g1.2.2 kg hkg
  · intro kg hkg
    rw [FilterByService_eq_filter]
    exact g2.2.2 kg hkg

/-- C12. For every collection `C` and string `s`, `FilterBySeverity(C, s)` is the
sub-sequence of `C`, in the order of `C`, of the alerts whose severity is `s`
character for character; it is empty exactly when no alert matches, and
"Critical" does not match the severity "critical". -/
theorem FilterBySeverity_subsequence (C : Alerts) (s : String) :
    FilterBySeverity C s = C.filter (fun a => a.Severity = s) ∧
    (FilterBySeverity C s).Sublist C ∧
    (∀ a, a ∈ FilterBySeverity C s ↔ a ∈ C ∧ a.Severity = s) ∧
    (FilterBySeverity C s = [] ↔ ∀ a ∈ C, a.Severity ≠ s) ∧
    FilterBySeverity [latencyAlert] "Critical" = [] ∧
    FilterBySeverity [latencyAlert] "critical" = [latencyAlert] := by
  have h := FilterBySeverity_eq_filter C s
  refine ⟨h, ?_, ?_, ?_, by decide, by decide⟩
  · rw [h]; exact List.filter_sublist C
  · intro a; rw [h]; simp [List.mem_filter]
  · rw [h, List.filter_eq_nil_iff]; simp

/-- C13 (code defect). The filter is meant to keep the alerts stamped strictly
after the current time minus `N` minutes. For the window of 153722868 minutes
the duration `-time.Duration(minutes) * time.Minute` leaves the range of `int64`
and wraps around to a positive value: the cut-off lies in the future, and both
alerts of `windowBatch`, which are stamped after the instant 1000 minus the
window, are dropped at the instant 1000. -/
theorem FilterByLastMinutes_long_window :
    (0 : Int) < 153722868 ∧
    windowBatch.filter (fun a => a.Timestamp > 1000 - 153722868 * timeMinute) = windowBatch ∧
    FilterByLastMinutes 1000 windowBatch 153722868 = [] := by
  decide

/-- The recency filter where the duration does not overflow. For every
collection `C`, every current time `now` and every `N` with `0 < N ≤ 153722867`,
`FilterByLastMinutes(C, N)` at `now` is the sub-sequence of `C`, in the order of
`C`, of the alerts stamped strictly after `now` minus `N` minutes; an alert
stamped at the cut-off is dropped and an alert stamped in the future is kept. -/
theorem FilterByLastMinutes_window (now : Int) (C : Alerts) (N : Int)
    (hN : 0 < N) (hmax : N ≤ 153722867) :
    FilterByLastMinutes now C N = C.filter (fun a => a.Timestamp > now - N * timeMinute) ∧
    (FilterByLastMinutes now C N).Sublist C ∧
    (∀ a ∈ C, a.Timestamp = now - N * timeMinute → a ∉ FilterByLastMinutes now C N) ∧
    (∀ a ∈ C, a.Timestamp > now → a ∈ FilterByLastMinutes now C N) := by
  have h : FilterByLastMinutes now C N =
      C.filter (fun a => a.Timestamp > now - N * timeMinute) := by
    rw [FilterByLastMinutes_eq_filter, windowDuration_of_le N hN hmax]
    rfl
  refine ⟨h, ?_, ?_, ?_⟩
  · rw [h]; exact List.filter_sublist C
  · intro a _ ha
    rw [h, List.mem_filter]
    simp [ha]
  · intro a haC ha
    rw [h, List.mem_filter]
    refine ⟨haC, ?_⟩
    have hpos : 0 < N * timeMinute := by unfold timeMinute; omega
    simp only [gt_iff_lt, decide_eq_true_eq]
    omega

/-- The recency filter at a concrete input: the window of 30 minutes at the
instant 1000 on `windowBatch`. -/
theorem FilterByLastMinutes_window_witness :
    (0 : Int) < 30 ∧ (30 : Int) ≤ 153722867 ∧
    FilterByLastMinutes 1000 windowBatch 30 =
      windowBatch.filter (fun a => a.Timestamp > 1000 - 30 * timeMinute) :=
  ⟨by decide, by decide, (FilterByLastMinutes_window 1000 windowBatch 30 (by decide) (by decide)).1⟩

/-- C14 as stated fails. The two alerts of `sameIdBatch` share service and metric
and have different components, and `countAffectedComponents` answers 1 for each
of them: they carry the same identifier, so each one is skipped as "itself" when
the other is the target. -/
theorem countAffectedComponents_same_identifier :
    sameIdBatch.length = 2 ∧
    (∀ a ∈ sameIdBatch, ∀ b ∈ sameIdBatch, a.Service = b.Service ∧ a.Metric = b.Metric) ∧
    (sameIdBatch.map (fun a => a.Component)).Nodup ∧
    sameIdBatch.map (countAffectedComponents sameIdBatch) = [1, 1] := by
  decide

/-- C14 as amended. For every collection made of two alerts that share service
and metric, have different component names and have different identifiers,
`countAffectedComponents` answers 2 for each of the two alerts. -/
theorem countAffectedComponents_pair (a b : Alert)
    (hs : a.Service = b.Service) (hm : a.Metric = b.Metric)
    (_hc : a.Component ≠ b.Component) (hid : a.ID ≠ b.ID) :
    countAffectedComponents [a, b] a = 2 ∧ countAffectedComponents [a, b] b = 2 := by
  have hid2 : ¬ b.ID = a.ID := fun e => hid e.symm
  constructor
  · simp [countAffectedComponents, componentStep, hs, hm, hid2]
  · simp [countAffectedComponents, componentStep, hs, hm, hid]

/-- C14 as amended, at a concrete input: the two latency alerts of
`TestCountAffectedComponents`. -/
theorem countAffectedComponents_pair_witness :
    countAffectedComponents
      [mkAlert "ALT-100" "test-service" "component-1" "" "latency" 100 50,
       mkAlert "ALT-101" "test-service" "component-2" "" "latency" 120 50]
      (mkAlert "ALT-100" "test-service" "component-1" "" "latency" 100 50) = 2 ∧
    countAffectedComponents
      [mkAlert "ALT-100" "test-service" "component-1" "" "latency" 100 50,
       mkAlert "ALT-101" "test-service" "component-2" "" "latency" 120 50]
      (mkAlert "ALT-101" "test-service" "component-2" "" "latency" 120 50) = 2 :=
  countAffectedComponents_pair
    (mkAlert "ALT-100" "test-service" "component-1" "" "latency" 100 50)
    (mkAlert "ALT-101" "test-service" "component-2" "" "latency" 120 50)
    rfl rfl (by decide) (by decide)

/-- C15. For every value `v`, `calculateDeviationPercentage(v, 0)` is 0, and an
alert whose threshold is 0 gets the priority made of the severity score and
twice the component count alone, whatever its value. -/
theorem calculateDeviationPercentage_zero_threshold (v : ℚ) (a : Alert) (C : Alerts) :
    calculateDeviationPercentage v 0 = 0 ∧
    (CalculatePriority { a with Threshold := 0 } C).Priority =
      severityScore a.Severity + 2 * (countAffectedComponents C { a with Threshold := 0 } : ℚ) := by
  refine ⟨calculateDeviationPercentage_zero v, ?_⟩
  rw [CalculatePriority_of_threshold_zero { a with Threshold := 0 } C rfl]

/-- C16 as stated fails. On `windowBatch` with a window of 30 minutes at the
instant 1000, `processAlerts` hands on the recent alert with priority 5: it was
scored against the whole batch, where the alert outside the window adds a second
component. Scoring the filtered collection gives it priority 3. -/
theorem processAlerts_scores_before_filter :
    (processAlerts insertionSortSlice 1000 windowBatch 30).map (fun a => (a.ID, a.Priority)) =
      [("ALT-1", 5)] ∧
    (CalculateAllPriorities (FilterByLastMinutes 1000 windowBatch 30)).map
      (fun a => (a.ID, a.Priority)) = [("ALT-1", 3)] := by
  constructor
  · unfold processAlerts
    simp only []
    rw [CalculateAllPriorities_windowBatch]
    decide
  · rw [CalculateAllPriorities_recent]
    decide

/-- C16 as amended. In `processAlerts` with a recency window `N > 0` the filter
is applied after scoring and sorting: every alert handed on to be displayed is
an alert of the input collection with the priority that `CalculatePriority`
gives it against the whole, unfiltered input, and it is stamped after the
cut-off. -/
theorem processAlerts_displayed_priority
    (sortSlice : (Alert → Alert → Bool) → Alerts → Alerts)
    (hsort : SortSliceContract sortSlice) (now : Int) (alerts : Alerts) (N : Int)
    (hN : 0 < N) :
    processAlerts sortSlice now alerts N =
      FilterByLastMinutes now (SortByPriority sortSlice (CalculateAllPriorities alerts)) N ∧
    ∀ a ∈ processAlerts sortSlice now alerts N,
      ∃ a0 ∈ alerts, a = CalculatePriority a0 alerts ∧
        a.Timestamp > now + windowDuration N := by
  have h : processAlerts sortSlice now alerts N =
      FilterByLastMinutes now (SortByPriority sortSlice (CalculateAllPriorities alerts)) N := by
    unfold processAlerts
    simp only [hN, if_true]
  refine ⟨h, ?_⟩
  intro a ha
  rw [h, FilterByLastMinutes_eq_filter, List.mem_filter] at ha
  obtain ⟨hmem, htime⟩ := ha
  have hperm := (hsort priorityLess (CalculateAllPriorities alerts)
    priorityLess_transitiveOrdering).1
  have hin : a ∈ CalculateAllPriorities alerts := hperm.subset hmem
  rw [CalculateAllPriorities_eq_map, List.mem_map] at hin
  obtain ⟨a0, ha0, rfl⟩ := hin
  exact ⟨a0, ha0, rfl, by simpa using htime⟩

/-- C16 as amended, at a concrete input: `windowBatch`, a window of 30 minutes
and the instant 1000. -/
theorem processAlerts_displayed_priority_witness :
    SortSliceContract insertionSortSlice ∧ (0 : Int) < 30 ∧
    ∀ a ∈ processAlerts insertionSortSlice 1000 windowBatch 30,
      ∃ a0 ∈ windowBatch, a = CalculatePriority a0 windowBatch ∧
        a.Timestamp > 1000 + windowDuration 30 :=
  ⟨insertionSortSlice_contract, by decide,
   (processAlerts_displayed_priority insertionSortSlice insertionSortSlice_contract 1000
      windowBatch 30 (by decide)).2⟩

/-- C17. For every collection `C` and target `t`, `countAffectedComponents` is 1
plus the number of distinct component names among the alerts of `C` that have
the service and the metric of `t` and an identifier other than that of `t`; it
is at least 1, and it is 1 on the empty collection and on the collection made
of `t` alone. -/
theorem countAffectedComponents_one_plus_others (C : Alerts) (t : Alert) :
    countAffectedComponents C t = 1 + (otherComponents C t).length ∧
    1 ≤ countAffectedComponents C t ∧
    countAffectedComponents [] t = 1 ∧
    countAffectedComponents [t] t = 1 := by
  have h := countAffectedComponents_eq C t
  refine ⟨h, by omega, rfl, ?_⟩
  simp [countAffectedComponents, componentStep]

/-- C18 as stated fails. With the same deviation percentage and the same
component count a warning alert does not always score exactly 4 more than an
info alert. For the value -1397 and the threshold -2000 the deviation percentage
is -30.15, the warning alert gets 3.99 and the info alert -0.02: the scores
before rounding, 3.985 and -0.015, lie on either side of zero and are both
rounded away from it. -/
theorem severity_gap_negative_threshold :
    calculateDeviationPercentage (tieAlert "warning").Value (tieAlert "warning").Threshold =
      calculateDeviationPercentage (tieAlert "info").Value (tieAlert "info").Threshold ∧
    countAffectedComponents [tieAlert "warning"] (tieAlert "warning") =
      countAffectedComponents [tieAlert "info"] (tieAlert "info") ∧
    (CalculatePriority (tieAlert "warning") [tieAlert "warning"]).Priority = 399 / 100 ∧
    (CalculatePriority (tieAlert "info") [tieAlert "info"]).Priority = -2 / 100 ∧
    (CalculatePriority (tieAlert "warning") [tieAlert "warning"]).Priority -
      (CalculatePriority (tieAlert "info") [tieAlert "info"]).Priority ≠ 4 := by
  have hw : (CalculatePriority (tieAlert "warning") [tieAlert "warning"]).Priority = 399 / 100 := by
    have hs : severityScore (tieAlert "warning").Severity = 5 := by decide
    have hc : countAffectedComponents [tieAlert "warning"] (tieAlert "warning") = 1 := by decide
    have hd : calculateDeviationPercentage (tieAlert "warning").Value
        (tieAlert "warning").Threshold = -603 / 20 := calculateDeviationPercentage_tie
    have e : ((5 : ℚ) * 1 + -603 / 20 * (1 / 10) + ((1 : ℕ) : ℚ) * 2) * 100 = 797 / 2 := by
      norm_num
    show ((mathRound ((severityScore (tieAlert "warning").Severity * 1 +
      calculateDeviationPercentage (tieAlert "warning").Value (tieAlert "warning").Threshold *
        (1 / 10) +
      ((countAffectedComponents [tieAlert "warning"] (tieAlert "warning") : ℕ) : ℚ) * 2) * 100) :
        ℤ) : ℚ) / 100 = _
    rw [hs, hc, hd, e, mathRound_tie_warning]
    norm_num
  have hi : (CalculatePriority (tieAlert "info") [tieAlert "info"]).Priority = -2 / 100 := by
    have hs : severityScore (tieAlert "info").Severity = 1 := by decide
    have hc : countAffectedComponents [tieAlert "info"] (tieAlert "info") = 1 := by decide
    have hd : calculateDeviationPercentage (tieAlert "info").Value
        (tieAlert "info").Threshold = -603 / 20 := calculateDeviationPercentage_tie
    have e : ((1 : ℚ) * 1 + -603 / 20 * (1 / 10) + ((1 : ℕ) : ℚ) * 2) * 100 = -3 / 2 := by
      norm_num
    show ((mathRound ((severityScore (tieAlert "info").Severity * 1 +
      calculateDeviationPercentage (tieAlert "info").Value (tieAlert "info").Threshold *
        (1 / 10) +
      ((countAffectedComponents [tieAlert "info"] (tieAlert "info") : ℕ) : ℚ) * 2) * 100) :
        ℤ) : ℚ) / 100 = _
    rw [hs, hc, hd, e, mathRound_tie_info]
    norm_num
  refine ⟨rfl, by decide, hw, hi, ?_⟩
  rw [hw, hi]
  norm_num

/-- C18 as amended. For any two alerts that have the same deviation percentage,
which is not negative, and the same affected-component count, a critical alert
gets a strictly higher priority than a warning alert, and a warning alert a
strictly higher priority than an info alert. -/
theorem severity_strictly_higher (a b : Alert) (C D : Alerts)
    (hd : calculateDeviationPercentage a.Value a.Threshold =
      calculateDeviationPercentage b.Value b.Threshold)
    (hnn : 0 ≤ calculateDeviationPercentage a.Value a.Threshold)
    (hc : countAffectedComponents C a = countAffectedComponents D b) :
    (stringsToLower a.Severity = "critical" → stringsToLower b.Severity = "warning" →
      (CalculatePriority b D).Priority < (CalculatePriority a C).Priority) ∧
    (stringsToLower a.Severity = "warning" → stringsToLower b.Severity = "info" →
      (CalculatePriority b D).Priority < (CalculatePriority a C).Priority) := by
  have hgap := CalculatePriority_severity_gap a b C D hd hc hnn
  constructor
  · intro ha hb
    have h1 : severityScore a.Severity = 10 := by simp [severityScore, ha]
    have h2 : severityScore b.Severity = 5 := by simp [severityScore, hb]
    rw [h1, h2] at hgap
    linarith
  · intro ha hb
    have h1 : severityScore a.Severity = 5 := by simp [severityScore, ha]
    have h2 : severityScore b.Severity = 1 := by simp [severityScore, hb]
    rw [h1, h2] at hgap
    linarith

/-- C18 as amended, at a concrete input: the alert of value 2300 and threshold
1000, alone in its batch, as critical, as warning and as info. -/
theorem severity_strictly_higher_witness :
    (CalculatePriority (scenarioAlert "warning") [scenarioAlert "warning"]).Priority <
      (CalculatePriority (scenarioAlert "critical") [scenarioAlert "critical"]).Priority ∧
    (CalculatePriority (scenarioAlert "info") [scenarioAlert "info"]).Priority <
      (CalculatePriority (scenarioAlert "warning") [scenarioAlert "warning"]).Priority :=
  ⟨(severity_strictly_higher (scenarioAlert "critical") (scenarioAlert "warning")
      [scenarioAlert "critical"] [scenarioAlert "warning"] rfl
      (calculateDeviationPercentage_bounds_of_nonneg _ _ (by decide)).1 (by decide)).1
      (by decide) (by decide),
   (severity_strictly_higher (scenarioAlert "warning") (scenarioAlert "info")
      [scenarioAlert "warning"] [scenarioAlert "info"] rfl
      (calculateDeviationPercentage_bounds_of_nonneg _ _ (by decide)).1 (by decide)).2
      (by decide) (by decide)⟩

/-- C19 (code defect). The value "SEVERITY" passes the validation of
`--groupby`, which compares in lower case, and `Group` gives no group at all for
it on a non-empty collection: `Group` receives the value as typed, and
`strings.Title` leaves "SEVERITY" as it is, which is not a field name. The value
"severity" is accepted as well and gives the group of the alert. -/
theorem groupBy_accepted_but_empty :
    groupByAccepted "SEVERITY" = true ∧ [latencyAlert] ≠ [] ∧
    Group nanosV [latencyAlert] "SEVERITY" = [] ∧
    groupByAccepted "severity" = true ∧
    Group nanosV [latencyAlert] "severity" = [("critical", [latencyAlert])] := by
  decide

/-- C20. For every collection `C`, every permutation `D` of `C` and every alert
`a`, `countAffectedComponents` and the priority set by `CalculatePriority` are
the same against `C` and against `D`; so scoring a sorted collection gives every
alert the priority it gets against `C`, and scoring after sorting and sorting
after scoring give the same alerts with the same priorities. -/
theorem scoring_independent_of_order
    (sortSlice : (Alert → Alert → Bool) → Alerts → Alerts)
    (hsort : SortSliceContract sortSlice) (C D : Alerts) (hperm : C.Perm D) (a : Alert) :
    countAffectedComponents C a = countAffectedComponents D a ∧
    (CalculatePriority a C).Priority = (CalculatePriority a D).Priority ∧
    CalculateAllPriorities (SortByPriority sortSlice C) =
      (SortByPriority sortSlice C).map (fun x => CalculatePriority x C) ∧
    (CalculateAllPriorities (SortByPriority sortSlice C)).Perm
      (SortByPriority sortSlice (CalculateAllPriorities C)) := by
  have hs : (SortByPriority sortSlice C).Perm C :=
    (hsort priorityLess C priorityLess_transitiveOrdering).1
  have hmap : CalculateAllPriorities (SortByPriority sortSlice C) =
      (SortByPriority sortSlice C).map (fun x => CalculatePriority x C) := by
    rw [CalculateAllPriorities_eq_map]
    apply List.map_congr_left
    intro x _
    exact CalculatePriority_perm _ _ x hs
  refine ⟨countAffectedComponents_perm C D a hperm, ?_, hmap, ?_⟩
  · rw [CalculatePriority_perm C D a hperm]
  · rw [hmap]
    have h1 : ((SortByPriority sortSlice C).map (fun x => CalculatePriority x C)).Perm
        (CalculateAllPriorities C) := by
      rw [CalculateAllPriorities_eq_map]
      exact hs.map _
    exact h1.trans
      (hsort priorityLess (CalculateAllPriorities C) priorityLess_transitiveOrdering).1.symm

/-- C20 at a concrete input: `twinBatch` and the same batch read
backwards. -/
theorem scoring_independent_of_order_witness :
    SortSliceContract insertionSortSlice ∧ twinBatch.Perm twinBatch.reverse ∧
    countAffectedComponents twinBatch latencyAlert =
      countAffectedComponents twinBatch.reverse latencyAlert :=
  ⟨insertionSortSlice_contract, (List.reverse_perm twinBatch).symm,
   (scoring_independent_of_order insertionSortSlice insertionSortSlice_contract twinBatch
      twinBatch.reverse (List.reverse_perm twinBatch).symm latencyAlert).1⟩

end AlertBuddy
